import Mathlib

/-!
Verification development for the history_rag repository.

Python strings are embedded as `List Char`; each definition below is a
shallow embedding of the correspondingly named function of the source
(src/Ollama_RAG.py, src/Open_AI_RAG.py, src/scraper.py).  External
collaborators (the LLM, the browser, the filesystem) are passed in as
explicit parameters or abstracted as values describing their observable
responses, so every definition is an executable Lean function.
-/

/-! ### Generic list helpers -/

/-- A list occurs contiguously inside another list. -/
def occursIn (needle hay : List Char) : Prop :=
  ∃ l r, hay = l ++ (needle ++ r)

theorem occursIn_extend (needle ctx a b : List Char)
    (h : occursIn needle ctx) : occursIn needle (a ++ ctx ++ b) := by
  obtain ⟨l, r, rfl⟩ := h
  exact ⟨a ++ l, r ++ b, by simp⟩

theorem map_eq_self_of_forall {α : Type} (g : α → α) :
    ∀ (l : List α), (∀ c ∈ l, g c = c) → l.map g = l := by
  intro l
  induction l with
  | nil => intro _; rfl
  | cons c t ih =>
    intro h
    simp only [List.map_cons]
    rw [h c (by simp), ih (fun x hx => h x (by simp [hx]))]

theorem length_dropWhile_le' {α : Type} (p : α → Bool) (l : List α) :
    (l.dropWhile p).length ≤ l.length := by
  induction l with
  | nil => simp [List.dropWhile]
  | cons c t ih =>
    by_cases h : p c
    · simp only [List.dropWhile_cons_of_pos h]
      exact Nat.le_trans ih (Nat.le_succ _)
    · simp [List.dropWhile_cons_of_neg h]

theorem takeWhile_append_stop {p : Char → Bool} :
    ∀ (l : List Char) (x : Char) (t : List Char),
      (∀ c ∈ l, p c = true) → p x = false →
      (l ++ x :: t).takeWhile p = l := by
  intro l
  induction l with
  | nil =>
    intro x t _ hx
    have hx' : ¬ p x = true := by simp [hx]
    simp only [List.nil_append]
    exact List.takeWhile_cons_of_neg hx'
  | cons c cs ih =>
    intro x t hl hx
    have hc : p c = true := hl c (by simp)
    simp only [List.cons_append, List.takeWhile_cons_of_pos hc]
    rw [ih x t (fun d hd => hl d (by simp [hd])) hx]

theorem dropWhile_append_stop {p : Char → Bool} :
    ∀ (l : List Char) (x : Char) (t : List Char),
      (∀ c ∈ l, p c = true) → p x = false →
      (l ++ x :: t).dropWhile p = x :: t := by
  intro l
  induction l with
  | nil =>
    intro x t _ hx
    have hx' : ¬ p x = true := by simp [hx]
    simp only [List.nil_append]
    exact List.dropWhile_cons_of_neg hx'
  | cons c cs ih =>
    intro x t hl hx
    have hc : p c = true := hl c (by simp)
    simp only [List.cons_append, List.dropWhile_cons_of_pos hc]
    exact ih x t (fun d hd => hl d (by simp [hd])) hx

/-! ### scraper.py — `sanitize_filename` (claim C4) -/

/-- The character class of the regex `[<>:"/\\|?*]` in
`PresidencyDocumentScraper.sanitize_filename`. -/
def reserved_chars : List Char :=
  ['<', '>', ':', '"', '/', '\\', '|', '?', '*']

/-- `re.sub(r'[<>:"/\\|?*]', '_', ·)` replaces exactly the characters of
the class. -/
def invalid_char (c : Char) : Bool :=
  decide (c ∈ reserved_chars)

/-- Per-character action of `re.sub(r'[<>:"/\\|?*]', '_', ·)`. -/
def replace_reserved (c : Char) : Char :=
  if invalid_char c then '_' else c

/-- Per-character action of `.replace('\n', ' ')`. -/
def replace_nl (c : Char) : Char :=
  if c = '\n' then ' ' else c

/-- Per-character action of `.replace('\r', ' ')`. -/
def replace_cr (c : Char) : Char :=
  if c = '\r' then ' ' else c

/-- Shallow embedding of `PresidencyDocumentScraper.sanitize_filename`:
replace reserved characters with an underscore, replace `\n` and `\r`
with spaces, then truncate to 240 characters. -/
def sanitize_filename (filename : List Char) : List Char :=
  let s1 := filename.map replace_reserved
  let s2 := s1.map replace_nl
  let s3 := s2.map replace_cr
  if s3.length > 240 then s3.take 240 else s3

theorem clean_char_good (x : Char) :
    invalid_char (replace_cr (replace_nl (replace_reserved x))) = false
    ∧ replace_cr (replace_nl (replace_reserved x)) ≠ '\n'
    ∧ replace_cr (replace_nl (replace_reserved x)) ≠ '\r' := by
  unfold replace_reserved replace_nl replace_cr
  by_cases h0 : invalid_char x = true
  · simp only [h0, if_pos]
    decide
  · simp only [if_neg h0]
    by_cases h1 : x = '\n'
    · simp only [if_pos h1]
      decide
    · simp only [if_neg h1]
      by_cases h2 : x = '\r'
      · simp only [if_pos h2]
        decide
      · simp only [if_neg h2]
        exact ⟨by simpa using h0, h1, h2⟩

theorem sanitize_chars_good (f : List Char) :
    ∀ c ∈ sanitize_filename f,
      invalid_char c = false ∧ c ≠ '\n' ∧ c ≠ '\r' := by
  intro c hc
  simp only [sanitize_filename] at hc
  have hc3 : c ∈ ((f.map replace_reserved).map replace_nl).map replace_cr := by
    by_cases h : (((f.map replace_reserved).map replace_nl).map replace_cr).length > 240
    · rw [if_pos h] at hc
      exact List.take_subset _ _ hc
    · rwa [if_neg h] at hc
  obtain ⟨b, hb, rfl⟩ := List.mem_map.mp hc3
  obtain ⟨a, ha, rfl⟩ := List.mem_map.mp hb
  obtain ⟨x, _, rfl⟩ := List.mem_map.mp ha
  exact clean_char_good x

theorem sanitize_length_le (f : List Char) :
    (sanitize_filename f).length ≤ 240 := by
  simp only [sanitize_filename]
  by_cases h : (((f.map replace_reserved).map replace_nl).map replace_cr).length > 240
  · rw [if_pos h]
    simp only [List.length_take]
    omega
  · rw [if_neg h]
    omega

theorem sanitize_idem (f : List Char) :
    sanitize_filename (sanitize_filename f) = sanitize_filename f := by
  have hgood := sanitize_chars_good f
  have hlen := sanitize_length_le f
  conv_lhs => rw [sanitize_filename]
  have h1 : (sanitize_filename f).map replace_reserved = sanitize_filename f := by
    apply map_eq_self_of_forall
    intro c hc
    simp [replace_reserved, (hgood c hc).1]
  rw [h1]
  have h2 : (sanitize_filename f).map replace_nl = sanitize_filename f := by
    apply map_eq_self_of_forall
    intro c hc
    simp [replace_nl, (hgood c hc).2.1]
  rw [h2]
  have h3 : (sanitize_filename f).map replace_cr = sanitize_filename f := by
    apply map_eq_self_of_forall
    intro c hc
    simp [replace_cr, (hgood c hc).2.2]
  rw [h3]
  rw [if_neg (by omega)]

/-- C4: `sanitize_filename` is idempotent, its result never exceeds 240
characters, and the result never contains a reserved filesystem
character or a newline. -/
theorem C4_sanitize_filename_props (s : List Char) :
    sanitize_filename (sanitize_filename s) = sanitize_filename s
    ∧ (sanitize_filename s).length ≤ 240
    ∧ (∀ c ∈ sanitize_filename s, c ∉ reserved_chars ∧ c ≠ '\n') := by
  refine ⟨sanitize_idem s, sanitize_length_le s, ?_⟩
  intro c hc
  have h := sanitize_chars_good s c hc
  refine ⟨?_, h.2.1⟩
  intro hmem
  have hcontra : invalid_char c = true := by simpa [invalid_char] using hmem
  rw [h.1] at hcontra
  exact Bool.false_ne_true hcontra

/-- Witness for C4 at a concrete input containing a reserved character
and a newline. -/
theorem C4_sanitize_filename_props_witness :
    sanitize_filename (sanitize_filename (['a', '<', 'b', '\n', 'c']))
        = sanitize_filename (['a', '<', 'b', '\n', 'c'])
    ∧ (sanitize_filename (['a', '<', 'b', '\n', 'c'])).length ≤ 240
    ∧ ('a' ∉ reserved_chars ∧ 'a' ≠ '\n') := by
  have h := C4_sanitize_filename_props (['a', '<', 'b', '\n', 'c'])
  exact ⟨h.1, h.2.1, h.2.2 'a' (by decide)⟩

/-! ### Ollama_RAG.py — `main` (claims C9 and C10) -/

/-- ASCII lowering, the action of Python `str.lower` on the characters
relevant here. -/
def lowerAscii (c : Char) : Char :=
  if 'A' ≤ c ∧ c ≤ 'Z' then Char.ofNat (c.toNat + 32) else c

/-- Embedding of Python `query.lower()`. -/
def pyLower (l : List Char) : List Char :=
  l.map lowerAscii

/-- The questions the interactive loop of `main` submits to
`rag_system.query`, given the sequence of input lines: each line is
submitted unless its lowercased form is `quit`, which ends the loop. -/
def submitted_questions : List (List Char) → List (List Char)
  | [] => []
  | line :: rest =>
    if pyLower line = ('q' :: 'u' :: 'i' :: 't' :: []) then []
    else line :: submitted_questions rest

/-- The parsed command-line arguments of `main`: one positional
`folder_path` and an optional `--model` flag defaulting to
`llama3.2` (argparse declaration, src/Ollama_RAG.py lines 130-134). -/
structure CliArgs where
  folder_path : String
  model : String

/-- Embedding of the argparse step of `main`. -/
def parse_args (folder : String) (model_flag : Option String) : CliArgs :=
  { folder_path := folder,
    model := match model_flag with
             | some m => m
             | none => ("llama3.2") }

/-- The `model_name` value `main` passes to the `DocxRAGSystem`
constructor (src/Ollama_RAG.py line 139): the literal `llama3.2`,
whatever `args.model` holds. -/
def main_init_model (_args : CliArgs) : String :=
  ("llama3.2")

/-- The `folder_path` value `main` passes to the constructor. -/
def main_init_folder (args : CliArgs) : String :=
  args.folder_path

/-- C9: the code bug — the `--model` flag is parsed but does not select
the model in use; `main` hardcodes `llama3.2`, while it does forward the
positional folder path. -/
theorem C9_model_flag_ignored :
    (parse_args ("docs") (some ("mistral"))).model = ("mistral")
    ∧ main_init_model (parse_args ("docs") (some ("mistral"))) = ("llama3.2")
    ∧ main_init_model (parse_args ("docs") (some ("mistral"))) ≠ ("mistral")
    ∧ main_init_folder (parse_args ("docs") (some ("mistral"))) = ("docs") := by
  refine ⟨rfl, rfl, ?_, rfl⟩
  decide

/-- C10: the exit test of the interactive loop is case-insensitive; a
line lowercasing to `quit` ends the loop with nothing submitted, and any
other line is submitted followed by the rest of the loop. -/
theorem C10_quit_case_insensitive :
    (∀ (line : List Char) (rest : List (List Char)),
      (pyLower line = ('q' :: 'u' :: 'i' :: 't' :: []) →
        submitted_questions (line :: rest) = [])
      ∧ (pyLower line ≠ ('q' :: 'u' :: 'i' :: 't' :: []) →
        submitted_questions (line :: rest) = line :: submitted_questions rest))
    ∧ pyLower (['Q', 'U', 'I', 'T']) = ('q' :: 'u' :: 'i' :: 't' :: [])
    ∧ submitted_questions ([['Q', 'U', 'I', 'T'], ['l', 'o', 's', 't']]) = []
    ∧ submitted_questions ([['Q', 'u', 'i', 't']]) = []
    ∧ submitted_questions ([['q', 'u', 'i', 'z']]) = [['q', 'u', 'i', 'z']] := by
  refine ⟨?_, by decide, by decide, by decide, by decide⟩
  intro line rest
  constructor
  · intro h
    simp [submitted_questions, h]
  · intro h
    simp [submitted_questions, h]

/-- Witness for C10, discharging both hypotheses at concrete lines. -/
theorem C10_quit_case_insensitive_witness :
    submitted_questions ([['Q', 'U', 'I', 'T'], ['x']]) = []
    ∧ submitted_questions ([['h', 'i']]) = ['h', 'i'] :: submitted_questions [] := by
  have h := C10_quit_case_insensitive
  exact ⟨(h.1 (['Q', 'U', 'I', 'T']) ([['x']])).1 (by decide),
         (h.1 (['h', 'i']) ([])).2 (by decide)⟩

/-! ### scraper.py — per-document error recovery (claim C7) -/

/-- Outcome of `WebDriverWait.until(presence_of_all_elements_located(...))`
in `get_document_links`: `none` models a `TimeoutException`, `some ls`
the located links. -/
def get_document_links (found : Option (List (List Char))) : List (List Char) :=
  match found with
  | some links => links
  | none => []

/-- What happens while processing one link of the listing page: either
the document is extracted and saved, or some step raises. -/
inductive LinkOutcome where
  | extracted (link_text : List Char)
  | failed (msg : List Char)
deriving DecidableEq

/-- One observable step of the per-document loop of `start_scraping`. -/
inductive ScrapeAction where
  | saved (link_text : List Char)
  | reloaded_listing (url : List Char)
deriving DecidableEq

/-- Embedding of the `for link in document_links` loop body of
`start_scraping` (src/scraper.py lines 64-83): a successful link is
extracted and saved; on any exception the error is logged and the
listing page is re-fetched at `base_url + "?page={current_page}"`, and
the loop continues with the next link. -/
def process_documents (base_url : List Char) (current_page : Nat) :
    List LinkOutcome → List ScrapeAction
  | [] => []
  | LinkOutcome.extracted t :: rest =>
    ScrapeAction.saved t :: process_documents base_url current_page rest
  | LinkOutcome.failed _ :: rest =>
    ScrapeAction.reloaded_listing
        (base_url ++ ('?' :: 'p' :: 'a' :: 'g' :: 'e' :: '=' :: Nat.toDigits 10 current_page))
      :: process_documents base_url current_page rest

theorem process_documents_eq_map (base_url : List Char) (current_page : Nat) :
    ∀ (outcomes : List LinkOutcome),
      process_documents base_url current_page outcomes
        = outcomes.map (fun o =>
            match o with
            | LinkOutcome.extracted t => ScrapeAction.saved t
            | LinkOutcome.failed _ =>
              ScrapeAction.reloaded_listing
                (base_url ++ ('?' :: 'p' :: 'a' :: 'g' :: 'e' :: '=' :: Nat.toDigits 10 current_page))) := by
  intro outcomes
  induction outcomes with
  | nil => rfl
  | cons o rest ih =>
    cases o <;> simp [process_documents, ih]

/-- C7: failures never terminate the loop — a timeout collecting links
yields the empty list (a no-op page), and the per-document loop emits
one action per link whatever the outcomes: an extraction failure turns
into a reload of the listing page at the current page number and
processing continues with the remaining links. -/
theorem C7_failures_never_terminate_loop :
    get_document_links none = []
    ∧ (∀ (base_url : List Char) (current_page : Nat) (outcomes : List LinkOutcome),
        (process_documents base_url current_page outcomes).length = outcomes.length
        ∧ (process_documents base_url current_page (LinkOutcome.failed ([]) :: outcomes))
            = ScrapeAction.reloaded_listing
                (base_url ++ ('?' :: 'p' :: 'a' :: 'g' :: 'e' :: '=' :: Nat.toDigits 10 current_page))
              :: process_documents base_url current_page outcomes) := by
  refine ⟨rfl, ?_⟩
  intro base_url current_page outcomes
  constructor
  · rw [process_documents_eq_map]
    exact List.length_map _ _
  · rfl

/-! ### scraper.py — unconditional cleanup (claim C8) -/

/-- Observable events of a `start_scraping` run, at the granularity the
claim needs. -/
inductive RunEvent where
  | fatal_logged (msg : List Char)
  | quit_called
  | quit_error_logged (msg : List Char)
deriving DecidableEq

/-- Embedding of `cleanup` (src/scraper.py lines 164-169): `driver.quit()`
is always called; if it raises (`quit_failure = some msg`) the error is
logged and swallowed. -/
def cleanup_events (quit_failure : Option (List Char)) : List RunEvent :=
  match quit_failure with
  | none => [RunEvent.quit_called]
  | some msg => [RunEvent.quit_called, RunEvent.quit_error_logged msg]

/-- Embedding of the `try/except/finally` skeleton of `start_scraping`
(src/scraper.py lines 51-94): `body_failure = none` models the loop
finishing normally (no next page), `some msg` an unrecoverable top-level
exception, which is logged; `cleanup` runs in the `finally` block on
both paths. -/
def start_scraping_trace (body_failure : Option (List Char))
    (quit_failure : Option (List Char)) : List RunEvent :=
  (match body_failure with
   | none => []
   | some msg => [RunEvent.fatal_logged msg])
  ++ cleanup_events quit_failure

/-- C8: on every exit path — normal completion as well as any
unrecoverable top-level error — the trace ends with the cleanup events,
and `driver.quit()` is invoked in all cases. -/
theorem C8_cleanup_on_every_exit_path :
    ∀ (body_failure quit_failure : Option (List Char)),
      RunEvent.quit_called ∈ start_scraping_trace body_failure quit_failure
      ∧ ∃ pre, start_scraping_trace body_failure quit_failure
          = pre ++ cleanup_events quit_failure := by
  intro body_failure quit_failure
  refine ⟨?_, ?_⟩
  · cases body_failure <;> cases quit_failure <;>
      simp [start_scraping_trace, cleanup_events]
  · exact ⟨_, rfl⟩

/-! ### Ollama_RAG.py — `_load_docx_documents` (claim C3) -/

/-- Embedding of Python `str.endswith`. -/
def py_endswith (s suffix : List Char) : Bool :=
  if suffix.length ≤ s.length then
    s.drop (s.length - suffix.length) == suffix
  else
    false

/-- A file met during `os.walk`, with the records the external
`Docx2txtLoader.load` produces for it.  The traversal order of the walk
is the list order. -/
structure RawFile where
  name : List Char
  loaded : List (List Char)
deriving DecidableEq

/-- The suffix `.docx` tested by `filename.endswith(".docx")`. -/
def docx_suffix : List Char :=
  ['.', 'd', 'o', 'c', 'x']

/-- Embedding of `DocxRAGSystem._load_docx_documents`
(src/Ollama_RAG.py lines 48-65): collect the loader output of every
file whose name ends in `.docx`, and raise `ValueError` (modelled as
`Except.error`) when the collection is empty. -/
def load_docx_documents (folder_path : List Char) (walk : List RawFile) :
    Except (List Char) (List (List Char)) :=
  let documents := (walk.filter (fun f => py_endswith f.name docx_suffix)).flatMap
    (fun f => f.loaded)
  if documents.isEmpty then
    Except.error (('N' :: 'o' :: ' ' :: 'D' :: 'O' :: 'C' :: 'X' :: ' ' :: 'f' :: 'i' :: 'l' :: 'e' :: 's' :: ' ' :: 'f' :: 'o' :: 'u' :: 'n' :: 'd' :: ' ' :: 'i' :: 'n' :: ' ' :: []) ++ folder_path)
  else
    Except.ok documents

theorem length_flatMap_of_all_singleton :
    ∀ (l : List RawFile), (∀ f ∈ l, f.loaded.length = 1) →
      (l.flatMap (fun f => f.loaded)).length = l.length := by
  intro l
  induction l with
  | nil => intro _; rfl
  | cons f rest ih =>
    intro h
    simp only [List.flatMap_cons, List.length_append, List.length_cons]
    rw [h f (by simp), ih (fun g hg => h g (by simp [hg]))]
    omega

/-- C3: over a walk with zero `.docx` files ingestion fails with the
no-documents error, and over a walk whose `.docx` files each produce one
record it returns exactly one record per matching file. -/
theorem C3_ingestion_counts (folder_path : List Char) (walk : List RawFile) :
    (walk.filter (fun f => py_endswith f.name docx_suffix) = [] →
      ∃ msg, load_docx_documents folder_path walk = Except.error msg)
    ∧ (walk.filter (fun f => py_endswith f.name docx_suffix) ≠ [] →
      (∀ f ∈ walk.filter (fun f => py_endswith f.name docx_suffix), f.loaded.length = 1) →
      ∃ docs, load_docx_documents folder_path walk = Except.ok docs
        ∧ docs.length = (walk.filter (fun f => py_endswith f.name docx_suffix)).length) := by
  constructor
  · intro h
    refine ⟨('N' :: 'o' :: ' ' :: 'D' :: 'O' :: 'C' :: 'X' :: ' ' :: 'f' :: 'i' :: 'l' :: 'e' :: 's' :: ' ' :: 'f' :: 'o' :: 'u' :: 'n' :: 'd' :: ' ' :: 'i' :: 'n' :: ' ' :: []) ++ folder_path, ?_⟩
    simp [load_docx_documents, h]
  · intro hne hone
    refine ⟨(walk.filter (fun f => py_endswith f.name docx_suffix)).flatMap (fun f => f.loaded), ?_, ?_⟩
    · have hlen := length_flatMap_of_all_singleton _ hone
      have hpos : 0 < (walk.filter (fun f => py_endswith f.name docx_suffix)).length := by
        cases hf : walk.filter (fun f => py_endswith f.name docx_suffix) with
        | nil => exact absurd hf hne
        | cons a l => simp
      have hnone : ¬ ((walk.filter (fun f => py_endswith f.name docx_suffix)).flatMap
          (fun f => f.loaded)).isEmpty = true := by
        rw [List.isEmpty_iff_length_eq_zero, hlen]
        omega
      simp only [load_docx_documents]
      rw [if_neg hnone]
    · exact length_flatMap_of_all_singleton _ hone

/-- Witness for C3: a walk with two `.docx` files (one record each) and
one unrelated file yields exactly two records; and the empty walk yields
the error. -/
theorem C3_ingestion_counts_witness :
    (∃ msg, load_docx_documents (['d']) ([]) = Except.error msg)
    ∧ (∃ docs,
        load_docx_documents (['d'])
          ([⟨['a', '.', 'd', 'o', 'c', 'x'], [['x']]⟩,
            ⟨['b', '.', 't', 'x', 't'], [['y']]⟩,
            ⟨['c', '.', 'd', 'o', 'c', 'x'], [['z']]⟩])
          = Except.ok docs
        ∧ docs.length
            = (([⟨['a', '.', 'd', 'o', 'c', 'x'], [['x']]⟩,
                 ⟨['b', '.', 't', 'x', 't'], [['y']]⟩,
                 ⟨['c', '.', 'd', 'o', 'c', 'x'], [['z']]⟩]
                : List RawFile).filter (fun f => py_endswith f.name docx_suffix)).length) := by
  constructor
  · exact (C3_ingestion_counts (['d']) ([])).1 (by decide)
  · exact (C3_ingestion_counts (['d'])
      ([⟨['a', '.', 'd', 'o', 'c', 'x'], [['x']]⟩,
        ⟨['b', '.', 't', 'x', 't'], [['y']]⟩,
        ⟨['c', '.', 'd', 'o', 'c', 'x'], [['z']]⟩])).2
      (by decide) (by decide)

/-! ### Ollama_RAG.py — fallback chain of `create_retrieval_chain` (claim C1) -/

/-- The apostrophe character of the default template text. -/
def apos : Char := Char.ofNat 39

/-- The default template text before the `context` placeholder
(src/Ollama_RAG.py lines 89-95, whitespace included). -/
def tmpl_pre : List Char :=
  ("Use the following pieces of context to answer the question. \n            If you don").data
  ++ (apos :: ("t know the answer, just say that you don").data)
  ++ (apos :: ("t know, don").data)
  ++ (apos :: ("t try to make up an answer.\n            \n            Context: ").data)

/-- The default template text between the two placeholders. -/
def tmpl_mid : List Char :=
  ("\n            Question: ").data

/-- The default template text after the `question` placeholder. -/
def tmpl_post : List Char :=
  ("\n            \n            Helpful Answer:").data

/-- The default prompt template of `create_retrieval_chain`. -/
def default_template : List Char :=
  tmpl_pre ++ ("{context}").data ++ tmpl_mid ++ ("{question}").data ++ tmpl_post

/-- Embedding of `template.format(context=ctx, question=q)` for the
templates at hand: a brace opens a field, the field name selects the
replacement, everything else is copied. -/
def pyFormat (ctx q : List Char) : List Char → List Char
  | [] => []
  | c :: rest =>
    if c = '{' then
      (if rest.takeWhile (fun x => !(x == '}')) = ('c' :: 'o' :: 'n' :: 't' :: 'e' :: 'x' :: 't' :: []) then ctx
       else if rest.takeWhile (fun x => !(x == '}')) = ('q' :: 'u' :: 'e' :: 's' :: 't' :: 'i' :: 'o' :: 'n' :: []) then q
       else [])
      ++ pyFormat ctx q ((rest.dropWhile (fun x => !(x == '}'))).drop 1)
    else
      c :: pyFormat ctx q rest
termination_by l => l.length
decreasing_by
  · have h1 : ((rest.dropWhile (fun x => !(x == '}'))).drop 1).length
        ≤ (rest.dropWhile (fun x => !(x == '}'))).length := by
      rw [List.length_drop]
      omega
    have h2 := length_dropWhile_le' (fun x => !(x == '}')) rest
    simp only [List.length_cons]
    omega
  · simp only [List.length_cons]
    omega

/-- Embedding of Python `sep.join(strings)`. -/
def pyJoin (sep : List Char) : List (List Char) → List Char
  | [] => []
  | [x] => x
  | x :: rest => x ++ sep ++ pyJoin sep rest

/-- The `context` the fallback branch of `create_retrieval_chain` builds
(src/Ollama_RAG.py line 105): the corpus texts joined by blank lines. -/
def format_context (documents : List (List Char)) : List Char :=
  pyJoin ('\n' :: '\n' :: []) documents

/-- Embedding of the local `simple_chain` closure of
`create_retrieval_chain` in the no-retriever fallback: fill the default
template and invoke the LLM on the filled prompt. -/
def simple_chain (llm : List Char → List Char) (documents : List (List Char))
    (question : List Char) : List Char :=
  llm (pyFormat (format_context documents) question default_template)

/-- Embedding of `DocxRAGSystem.query`: call the chain on the bare
question. -/
def rag_query (chain : List Char → List Char) (question : List Char) : List Char :=
  chain question

theorem pyFormat_no_brace (ctx q : List Char) :
    ∀ (l : List Char), '{' ∉ l → pyFormat ctx q l = l := by
  intro l
  induction l with
  | nil =>
    intro _
    simp [pyFormat]
  | cons c rest ih =>
    intro h
    have hc : ¬ c = '{' := fun hc => h (hc ▸ List.mem_cons_self c rest)
    rw [pyFormat]
    rw [if_neg hc, ih (fun hm => h (List.mem_cons_of_mem c hm))]

theorem pyFormat_copies_literal (ctx q : List Char) :
    ∀ (pre t : List Char), '{' ∉ pre →
      pyFormat ctx q (pre ++ t) = pre ++ pyFormat ctx q t := by
  intro pre
  induction pre with
  | nil =>
    intro t _
    simp
  | cons c rest ih =>
    intro t h
    have hc : ¬ c = '{' := fun hc => h (hc ▸ List.mem_cons_self c rest)
    simp only [List.cons_append]
    rw [pyFormat]
    rw [if_neg hc, ih t (fun hm => h (List.mem_cons_of_mem c hm))]

theorem pyFormat_context_field (ctx q t : List Char) :
    pyFormat ctx q ('{' :: (('c' :: 'o' :: 'n' :: 't' :: 'e' :: 'x' :: 't' :: []) ++ ('}' :: t)))
      = ctx ++ pyFormat ctx q t := by
  rw [pyFormat, if_pos rfl]
  rw [takeWhile_append_stop _ '}' t (by decide) (by decide)]
  rw [dropWhile_append_stop _ '}' t (by decide) (by decide)]
  rw [if_pos rfl]
  simp

theorem pyFormat_question_field (ctx q t : List Char) :
    pyFormat ctx q ('{' :: (('q' :: 'u' :: 'e' :: 's' :: 't' :: 'i' :: 'o' :: 'n' :: []) ++ ('}' :: t)))
      = q ++ pyFormat ctx q t := by
  rw [pyFormat, if_pos rfl]
  rw [takeWhile_append_stop _ '}' t (by decide) (by decide)]
  rw [dropWhile_append_stop _ '}' t (by decide) (by decide)]
  rw [if_neg (by decide), if_pos rfl]
  simp

set_option maxRecDepth 10000 in
theorem pyFormat_default_template (ctx q : List Char) :
    pyFormat ctx q default_template
      = tmpl_pre ++ ctx ++ tmpl_mid ++ q ++ tmpl_post := by
  have hshape : default_template
      = tmpl_pre ++ ('{' :: (('c' :: 'o' :: 'n' :: 't' :: 'e' :: 'x' :: 't' :: [])
          ++ ('}' :: (tmpl_mid ++ ('{' :: (('q' :: 'u' :: 'e' :: 's' :: 't' :: 'i' :: 'o' :: 'n' :: [])
          ++ ('}' :: tmpl_post))))))) := by
    decide
  rw [hshape]
  rw [pyFormat_copies_literal _ _ _ _ (by decide)]
  rw [pyFormat_context_field]
  rw [pyFormat_copies_literal _ _ _ _ (by decide)]
  rw [pyFormat_question_field]
  rw [pyFormat_no_brace _ _ _ (by decide)]
  simp [List.append_assoc]

theorem occursIn_pyJoin (sep : List Char) :
    ∀ (docs : List (List Char)) (d : List Char), d ∈ docs →
      occursIn d (pyJoin sep docs) := by
  intro docs
  induction docs with
  | nil =>
    intro d h
    exact absurd h (List.not_mem_nil d)
  | cons x rest ih =>
    intro d hd
    cases rest with
    | nil =>
      have hx : d = x := by simpa using hd
      exact ⟨[], [], by simp [pyJoin, hx]⟩
    | cons y t =>
      rcases List.mem_cons.mp hd with rfl | hmem
      · exact ⟨[], sep ++ pyJoin sep (y :: t), by simp [pyJoin, List.append_assoc]⟩
      · obtain ⟨l, r, heq⟩ := ih d hmem
        exact ⟨x ++ sep ++ l, r, by simp [pyJoin, heq, List.append_assoc]⟩

/-- C1: in the no-retriever fallback, `query` sends the LLM exactly the
default template filled with the full joined corpus as `context` and the
question as `question`; in particular every loaded document text occurs
verbatim inside that prompt, and the call does not fail. -/
theorem C1_fallback_full_corpus_prompt (llm : List Char → List Char)
    (documents : List (List Char)) (question : List Char) :
    rag_query (simple_chain llm documents) question
      = llm (tmpl_pre ++ format_context documents ++ tmpl_mid ++ question ++ tmpl_post)
    ∧ pyFormat (format_context documents) question default_template
      = tmpl_pre ++ format_context documents ++ tmpl_mid ++ question ++ tmpl_post
    ∧ ∀ d ∈ documents,
        occursIn d (tmpl_pre ++ format_context documents ++ tmpl_mid ++ question ++ tmpl_post) := by
  refine ⟨?_, pyFormat_default_template _ _, ?_⟩
  · unfold rag_query simple_chain
    rw [pyFormat_default_template]
  · intro d hd
    have h := occursIn_pyJoin ('\n' :: '\n' :: []) documents d hd
    have h2 := occursIn_extend d (format_context documents) tmpl_pre
      (tmpl_mid ++ question ++ tmpl_post) h
    have hshape : tmpl_pre ++ format_context documents ++ tmpl_mid ++ question ++ tmpl_post
        = tmpl_pre ++ format_context documents ++ (tmpl_mid ++ question ++ tmpl_post) := by
      simp [List.append_assoc]
    rw [hshape]
    exact h2

/-- Witness for C1 at a two-document corpus, discharging the membership
hypothesis at the second document. -/
theorem C1_fallback_full_corpus_prompt_witness :
    rag_query (simple_chain (fun p => p) ([['a'], ['b', 'c']])) (['w'])
      = tmpl_pre ++ format_context ([['a'], ['b', 'c']]) ++ tmpl_mid ++ (['w']) ++ tmpl_post
    ∧ occursIn (['b', 'c'])
        (tmpl_pre ++ format_context ([['a'], ['b', 'c']]) ++ tmpl_mid ++ (['w']) ++ tmpl_post) := by
  have h := C1_fallback_full_corpus_prompt (fun p => p) ([['a'], ['b', 'c']]) (['w'])
  exact ⟨h.1, h.2.2 (['b', 'c']) (by decide)⟩

/-! ### scraper.py — `convert_date_format` (claim C5) -/

/-- The whitespace class matched by literal whitespace in an `strptime`
format string. -/
def is_pyspace (c : Char) : Bool :=
  c == ' ' || c == '\t' || c == '\n' || c == '\r' || c == '\x0b' || c == '\x0c'

/-- The twelve full month names recognized by `%B` (matching is
case-insensitive, so they are stored lowercased). -/
def month_names : List (List Char) :=
  [['j', 'a', 'n', 'u', 'a', 'r', 'y'],
   ['f', 'e', 'b', 'r', 'u', 'a', 'r', 'y'],
   ['m', 'a', 'r', 'c', 'h'],
   ['a', 'p', 'r', 'i', 'l'],
   ['m', 'a', 'y'],
   ['j', 'u', 'n', 'e'],
   ['j', 'u', 'l', 'y'],
   ['a', 'u', 'g', 'u', 's', 't'],
   ['s', 'e', 'p', 't', 'e', 'm', 'b', 'e', 'r'],
   ['o', 'c', 't', 'o', 'b', 'e', 'r'],
   ['n', 'o', 'v', 'e', 'm', 'b', 'e', 'r'],
   ['d', 'e', 'c', 'e', 'm', 'b', 'e', 'r']]

/-- Case-insensitive prefix match: when the lowercased input starts with
`name`, return the rest of the input. -/
def match_ci : List Char → List Char → Option (List Char)
  | [], s => some s
  | _ :: _, [] => none
  | n :: ns, c :: cs => if lowerAscii c = n then match_ci ns cs else none

/-- Try each month name in turn against a case-insensitive prefix of the
input; `idx` carries the month number of the head candidate. -/
def try_months (s : List Char) : List (List Char) → Nat → Option (Nat × List Char)
  | [], _ => none
  | name :: rest, idx =>
    match match_ci name s with
    | some r => some (idx, r)
    | none => try_months s rest (idx + 1)

/-- `\s+`: at least one whitespace character, consumed greedily. -/
def skip_ws1 (s : List Char) : Option (List Char) :=
  match s with
  | c :: rest => if is_pyspace c then some (rest.dropWhile is_pyspace) else none
  | [] => none

/-- The day pattern of `%d`: the regex `3[01]|[12]\d|0[1-9]|[1-9]`,
alternatives tried in order. -/
def parse_day (s : List Char) : Option (Nat × List Char) :=
  match s with
  | c1 :: c2 :: rest =>
    if c1 = '3' ∧ (c2 = '0' ∨ c2 = '1') then
      some (30 + (c2.toNat - 48), rest)
    else if (c1 = '1' ∨ c1 = '2') ∧ c2.isDigit then
      some ((c1.toNat - 48) * 10 + (c2.toNat - 48), rest)
    else if c1 = '0' ∧ ('1' ≤ c2 ∧ c2 ≤ '9') then
      some (c2.toNat - 48, rest)
    else if '1' ≤ c1 ∧ c1 ≤ '9' then
      some (c1.toNat - 48, c2 :: rest)
    else
      none
  | [c1] =>
    if '1' ≤ c1 ∧ c1 ≤ '9' then some (c1.toNat - 48, []) else none
  | [] => none

/-- The year pattern of `%Y`: exactly four digits. -/
def parse_year4 (s : List Char) : Option (Nat × List Char) :=
  match s with
  | a :: b :: c :: d :: rest =>
    if a.isDigit ∧ b.isDigit ∧ c.isDigit ∧ d.isDigit then
      some ((((a.toNat - 48) * 10 + (b.toNat - 48)) * 10 + (c.toNat - 48)) * 10
        + (d.toNat - 48), rest)
    else
      none
  | _ => none

/-- Gregorian leap-year rule used by `datetime`. -/
def is_leap (y : Nat) : Bool :=
  y % 4 == 0 && (!(y % 100 == 0) || y % 400 == 0)

/-- Day count of a month, as validated by the `datetime` constructor. -/
def days_in_month (y m : Nat) : Nat :=
  if m = 2 then (if is_leap y then 29 else 28)
  else if m = 4 ∨ m = 6 ∨ m = 9 ∨ m = 11 then 30
  else 31

/-- Embedding of `datetime.strptime(date_str, '%B %d, %Y')`: month name,
whitespace, day, comma, whitespace, four-digit year, nothing left over,
and the day/year must form a valid `datetime` date. -/
def strptime_full (date_str : List Char) : Option (Nat × Nat × Nat) :=
  match try_months date_str month_names 1 with
  | none => none
  | some (m, r1) =>
    match skip_ws1 r1 with
    | none => none
    | some r2 =>
      match parse_day r2 with
      | none => none
      | some (d, r3) =>
        match r3 with
        | ',' :: r4 =>
          match skip_ws1 r4 with
          | none => none
          | some r5 =>
            match parse_year4 r5 with
            | some (y, rest) =>
              match rest with
              | [] => if 1 ≤ y ∧ d ≤ days_in_month y m then some (y, m, d) else none
              | _ => none
            | none => none
        | _ => none

/-- Two-digit zero-padded rendering (`%m`, `%d`). -/
def pad2 (n : Nat) : List Char :=
  [Char.ofNat (48 + n / 10 % 10), Char.ofNat (48 + n % 10)]

/-- Four-digit zero-padded rendering (`%Y`). -/
def pad4 (n : Nat) : List Char :=
  [Char.ofNat (48 + n / 1000 % 10), Char.ofNat (48 + n / 100 % 10),
   Char.ofNat (48 + n / 10 % 10), Char.ofNat (48 + n % 10)]

/-- The sentinel `"0000-00-00"`. -/
def date_sentinel : List Char :=
  ('0' :: '0' :: '0' :: '0' :: '-' :: '0' :: '0' :: '-' :: '0' :: '0' :: [])

/-- Embedding of `PresidencyDocumentScraper.convert_date_format`: parse
with `strptime`, reformat as ISO `%Y-%m-%d` on success, and return the
sentinel instead of raising on any `ValueError`. -/
def convert_date_format (date_str : List Char) : List Char :=
  match strptime_full date_str with
  | some (y, m, d) => pad4 y ++ ('-' :: pad2 m) ++ ('-' :: pad2 d)
  | none => date_sentinel

/-- The capitalized month names as they appear in a
`"Month DD, YYYY"` input. -/
def month_names_display : List (List Char) :=
  [['J', 'a', 'n', 'u', 'a', 'r', 'y'],
   ['F', 'e', 'b', 'r', 'u', 'a', 'r', 'y'],
   ['M', 'a', 'r', 'c', 'h'],
   ['A', 'p', 'r', 'i', 'l'],
   ['M', 'a', 'y'],
   ['J', 'u', 'n', 'e'],
   ['J', 'u', 'l', 'y'],
   ['A', 'u', 'g', 'u', 's', 't'],
   ['S', 'e', 'p', 't', 'e', 'm', 'b', 'e', 'r'],
   ['O', 'c', 't', 'o', 'b', 'e', 'r'],
   ['N', 'o', 'v', 'e', 'm', 'b', 'e', 'r'],
   ['D', 'e', 'c', 'e', 'm', 'b', 'e', 'r']]

/-- A well-formed `"Month DD, YYYY"` string. -/
def mk_date_string (m d y : Nat) : List Char :=
  month_names_display.getD (m - 1) [] ++ (' ' :: (pad2 d ++ (',' :: (' ' :: pad4 y))))

theorem convert_date_leap_accept :
    convert_date_format (("february 29, 2020").data) = ("2020-02-29").data := by
  decide

theorem convert_date_leap_reject :
    convert_date_format (("February 29, 2021").data) = date_sentinel := by
  decide

theorem convert_date_requires_comma :
    convert_date_format (("January 20 2021").data) = date_sentinel := by
  decide

theorem mk_date_string_concrete :
    mk_date_string 1 20 2021 = ("January 20, 2021").data := by
  decide

theorem digit_not_space (k : Nat) (hk : k < 10) :
    is_pyspace (Char.ofNat (48 + k)) = false := by
  interval_cases k <;> decide

theorem digit_isDigit (k : Nat) (hk : k < 10) :
    (Char.ofNat (48 + k)).isDigit = true := by
  interval_cases k <;> decide

theorem digit_toNat (k : Nat) (hk : k < 10) :
    (Char.ofNat (48 + k)).toNat = 48 + k := by
  interval_cases k <;> decide

theorem days_in_month_le (y m : Nat) : days_in_month y m ≤ 31 := by
  unfold days_in_month
  split_ifs <;> omega

theorem parse_day_pad2 (d : Nat) (h1 : 1 ≤ d) (h2 : d ≤ 31) (rest : List Char) :
    parse_day (pad2 d ++ rest) = some (d, rest) := by
  interval_cases d <;> simp +decide [pad2, parse_day]

theorem parse_year4_pad4 (y : Nat) (hy : y ≤ 9999) :
    parse_year4 (pad4 y) = some (y, []) := by
  have h1 : y / 1000 % 10 < 10 := Nat.mod_lt _ (by omega)
  have h2 : y / 100 % 10 < 10 := Nat.mod_lt _ (by omega)
  have h3 : y / 10 % 10 < 10 := Nat.mod_lt _ (by omega)
  have h4 : y % 10 < 10 := Nat.mod_lt _ (by omega)
  simp only [pad4, parse_year4]
  rw [if_pos ⟨digit_isDigit _ h1, digit_isDigit _ h2, digit_isDigit _ h3, digit_isDigit _ h4⟩]
  rw [digit_toNat _ h1, digit_toNat _ h2, digit_toNat _ h3, digit_toNat _ h4]
  simp only [Option.some.injEq, Prod.mk.injEq]
  refine ⟨by omega, trivial⟩

theorem skip_ws1_pad2 (d : Nat) (t : List Char) :
    skip_ws1 (' ' :: (pad2 d ++ t)) = some (pad2 d ++ t) := by
  have hk : d / 10 % 10 < 10 := Nat.mod_lt _ (by omega)
  simp only [pad2, List.cons_append, List.nil_append, skip_ws1]
  rw [if_pos (by decide)]
  rw [List.dropWhile_cons_of_neg (by simp [digit_not_space _ hk])]

theorem skip_ws1_pad4 (y : Nat) :
    skip_ws1 (' ' :: pad4 y) = some (pad4 y) := by
  have hk : y / 1000 % 10 < 10 := Nat.mod_lt _ (by omega)
  simp only [pad4, skip_ws1]
  rw [if_pos (by decide)]
  rw [List.dropWhile_cons_of_neg (by simp [digit_not_space _ hk])]

theorem strptime_from_month_hit (m d y : Nat) (hd1 : 1 ≤ d) (hd31 : d ≤ 31)
    (hdm : d ≤ days_in_month y m) (hy1 : 1 ≤ y) (hy2 : y ≤ 9999) (s : List Char)
    (hmatch : try_months s month_names 1
      = some (m, ' ' :: (pad2 d ++ (',' :: (' ' :: pad4 y))))) :
    strptime_full s = some (y, m, d) := by
  unfold strptime_full
  rw [hmatch]
  simp only
  rw [skip_ws1_pad2]
  simp only
  rw [parse_day_pad2 d hd1 hd31]
  simp only
  rw [skip_ws1_pad4]
  simp only
  rw [parse_year4_pad4 y hy2]
  simp only
  rw [if_pos ⟨hy1, hdm⟩]

theorem convert_mk_date (m d y : Nat) (hm1 : 1 ≤ m) (hm2 : m ≤ 12) (hd1 : 1 ≤ d)
    (hdm : d ≤ days_in_month y m) (hy1 : 1000 ≤ y) (hy2 : y ≤ 9999) :
    convert_date_format (mk_date_string m d y)
      = pad4 y ++ ('-' :: pad2 m) ++ ('-' :: pad2 d) := by
  have hd31 : d ≤ 31 := le_trans hdm (days_in_month_le y m)
  have hy1' : 1 ≤ y := by omega
  have hst : strptime_full (mk_date_string m d y) = some (y, m, d) := by
    interval_cases m <;>
      exact strptime_from_month_hit _ d y hd1 hd31 hdm hy1' hy2 _
        (by simp +decide [mk_date_string, month_names_display, try_months, match_ci, month_names])
  unfold convert_date_format
  rw [hst]

/-- C5: date conversion maps `"Month DD, YYYY"` strings to ISO-8601 — in
particular `"January 20, 2021"` to `"2021-01-20"` — and any string
`strptime` rejects yields the sentinel `"0000-00-00"` instead of an
exception.  The general direction is stated for years with four
significant digits, where `%Y` output is unambiguously zero-padded. -/
theorem C5_convert_date (m d y : Nat) (s : List Char) :
    convert_date_format (("January 20, 2021").data) = ("2021-01-20").data
    ∧ convert_date_format (("not a date").data) = date_sentinel
    ∧ (1 ≤ m → m ≤ 12 → 1 ≤ d → d ≤ days_in_month y m → 1000 ≤ y → y ≤ 9999 →
        convert_date_format (mk_date_string m d y)
          = pad4 y ++ ('-' :: pad2 m) ++ ('-' :: pad2 d))
    ∧ (strptime_full s = none → convert_date_format s = date_sentinel) := by
  refine ⟨by decide, by decide, ?_, ?_⟩
  · intro hm1 hm2 hd1 hdm hy1 hy2
    exact convert_mk_date m d y hm1 hm2 hd1 hdm hy1 hy2
  · intro h
    unfold convert_date_format
    rw [h]

/-- Witness for C5: the general ISO direction applied at
July 4, 1776, and the sentinel direction at a concrete non-date. -/
theorem C5_convert_date_witness :
    convert_date_format (mk_date_string 7 4 1776)
      = pad4 1776 ++ ('-' :: pad2 7) ++ ('-' :: pad2 4)
    ∧ convert_date_format (('x' :: 'x' :: [])) = date_sentinel := by
  have h := C5_convert_date 7 4 1776 (('x' :: 'x' :: []))
  exact ⟨h.2.2.1 (by decide) (by decide) (by decide) (by decide) (by decide) (by decide),
         h.2.2.2 (by decide)⟩

/-! ### scraper.py — `extract_and_save_document` (claim C6) -/

/-- One filesystem write: target path and full UTF-8 text written. -/
structure FileWrite where
  path : List Char
  text : List Char
deriving DecidableEq

/-- The fixed output directory `presidential_documents` of the scraper. -/
def output_dir : List Char :=
  ('p' :: 'r' :: 'e' :: 's' :: 'i' :: 'd' :: 'e' :: 'n' :: 't' :: 'i' :: 'a' :: 'l' ::
   '_' :: 'd' :: 'o' :: 'c' :: 'u' :: 'm' :: 'e' :: 'n' :: 't' :: 's' :: [])

/-- The raw date shown in the header: the stripped text of the
`date-display-single` element, or `NO_DATE` when the element is absent
(`NoSuchElementException`). -/
def raw_date_of (date_element : Option (List Char)) : List Char :=
  match date_element with
  | some d => d
  | none => ('N' :: 'O' :: '_' :: 'D' :: 'A' :: 'T' :: 'E' :: [])

/-- The normalized date used in the filename: `convert_date_format` of
the element text, or the sentinel when the element is absent. -/
def formatted_date_of (date_element : Option (List Char)) : List Char :=
  match date_element with
  | some d => convert_date_format d
  | none => date_sentinel

/-- The body text: the `field-docs-content` element text, or the
`NO CONTENT FOUND` placeholder when the element is absent. -/
def body_of (content_element : Option (List Char)) : List Char :=
  match content_element with
  | some c => c
  | none => ('N' :: 'O' :: ' ' :: 'C' :: 'O' :: 'N' :: 'T' :: 'E' :: 'N' :: 'T' ::
             ' ' :: 'F' :: 'O' :: 'U' :: 'N' :: 'D' :: [])

/-- Embedding of the success path of
`PresidencyDocumentScraper.extract_and_save_document`
(src/scraper.py lines 109-149): exactly one file is opened for writing
(`'w'`, UTF-8), written once, and closed.  The path is
`output_dir/{formatted_date}_{sanitize_filename(link_text)}.txt`, and
the text is the `Date:` line, the `Title:` line, an 80-equals separator
line, a blank line, then the body. -/
def extract_and_save_document (date_element : Option (List Char))
    (link_text : List Char) (content_element : Option (List Char)) : List FileWrite :=
  [⟨output_dir ++ ('/' :: (formatted_date_of date_element
      ++ ('_' :: (sanitize_filename link_text ++ ('.' :: 't' :: 'x' :: 't' :: []))))),
    ('D' :: 'a' :: 't' :: 'e' :: ':' :: ' ' :: []) ++ raw_date_of date_element
      ++ ('\n' :: (('T' :: 'i' :: 't' :: 'l' :: 'e' :: ':' :: ' ' :: []) ++ link_text
      ++ ('\n' :: (List.replicate 80 ('=')
      ++ ('\n' :: '\n' :: body_of content_element)))))⟩]

/-- Python `str.splitlines`-style decomposition at `'\n'`, keeping empty
lines (the semantics of splitting on a single separator). -/
def split_lines : List Char → List (List Char)
  | [] => [[]]
  | c :: rest =>
    if c = '\n' then [] :: split_lines rest
    else
      match split_lines rest with
      | [] => [[c]]
      | l :: ls => (c :: l) :: ls

theorem split_lines_append (a : List Char) :
    ∀ (t : List Char), '\n' ∉ a →
      split_lines (a ++ '\n' :: t) = a :: split_lines t := by
  induction a with
  | nil =>
    intro t _
    simp [split_lines]
  | cons c rest ih =>
    intro t h
    have hc : ¬ c = '\n' := fun hc => h (hc ▸ List.mem_cons_self c rest)
    simp only [List.cons_append, split_lines, if_neg hc, List.append_eq]
    rw [ih t (fun hm => h (List.mem_cons_of_mem c hm))]

theorem no_nl_replicate_eq : '\n' ∉ List.replicate 80 ('=') := by
  intro h
  have := List.eq_of_mem_replicate h
  exact absurd this (by decide)

/-- C6: `extract_and_save_document` performs exactly one write; its path
is deterministically `output_dir/{ISO-or-sentinel}_{sanitized title}.txt`
(with the date part either the sentinel or a `strptime`-derived ISO
rendering), and — when the raw date and title contain no newline — its
text splits at newlines into exactly the `Date:` header line, the
`Title:` header line, the 80-character separator line, one blank line,
and then the body lines. -/
theorem C6_one_write_per_document (date_element : Option (List Char))
    (link_text : List Char) (content_element : Option (List Char)) :
    (extract_and_save_document date_element link_text content_element).length = 1
    ∧ (∀ w ∈ extract_and_save_document date_element link_text content_element,
        w.path = output_dir ++ ('/' :: (formatted_date_of date_element
          ++ ('_' :: (sanitize_filename link_text ++ ('.' :: 't' :: 'x' :: 't' :: [])))))
        ∧ (formatted_date_of date_element = date_sentinel
            ∨ ∃ y m d ds, date_element = some ds ∧ strptime_full ds = some (y, m, d)
                ∧ formatted_date_of date_element
                    = pad4 y ++ ('-' :: pad2 m) ++ ('-' :: pad2 d))
        ∧ ('\n' ∉ raw_date_of date_element → '\n' ∉ link_text →
            split_lines w.text
              = (('D' :: 'a' :: 't' :: 'e' :: ':' :: ' ' :: []) ++ raw_date_of date_element)
                :: (('T' :: 'i' :: 't' :: 'l' :: 'e' :: ':' :: ' ' :: []) ++ link_text)
                :: List.replicate 80 ('=')
                :: ([] : List Char)
                :: split_lines (body_of content_element))) := by
  refine ⟨rfl, ?_⟩
  intro w hw
  simp only [extract_and_save_document, List.mem_singleton] at hw
  subst hw
  refine ⟨rfl, ?_, ?_⟩
  · cases date_element with
    | none => exact Or.inl rfl
    | some ds =>
      cases hst : strptime_full ds with
      | none =>
        left
        simp [formatted_date_of, convert_date_format, hst]
      | some ymd =>
        right
        refine ⟨ymd.1, ymd.2.1, ymd.2.2, ds, rfl, by rw [hst], ?_⟩
        simp [formatted_date_of, convert_date_format, hst]
  · intro hdate htitle
    have hdl : '\n' ∉ ('D' :: 'a' :: 't' :: 'e' :: ':' :: ' ' :: []) ++ raw_date_of date_element := by
      intro h
      rcases List.mem_append.mp h with h1 | h2
      · exact absurd h1 (by decide)
      · exact hdate h2
    have htl : '\n' ∉ ('T' :: 'i' :: 't' :: 'l' :: 'e' :: ':' :: ' ' :: []) ++ link_text := by
      intro h
      rcases List.mem_append.mp h with h1 | h2
      · exact absurd h1 (by decide)
      · exact htitle h2
    show split_lines (('D' :: 'a' :: 't' :: 'e' :: ':' :: ' ' :: []) ++ raw_date_of date_element
      ++ ('\n' :: (('T' :: 'i' :: 't' :: 'l' :: 'e' :: ':' :: ' ' :: []) ++ link_text
      ++ ('\n' :: (List.replicate 80 ('=')
      ++ ('\n' :: '\n' :: body_of content_element)))))) = _
    rw [split_lines_append _ _ hdl]
    rw [split_lines_append _ _ htl]
    rw [split_lines_append _ _ no_nl_replicate_eq]
    rw [show ('\n' :: body_of content_element)
        = [] ++ '\n' :: body_of content_element from rfl]
    rw [split_lines_append _ _ (by simp)]

/-- Witness for C6 at concrete element texts, discharging the
no-newline hypotheses. -/
theorem C6_one_write_per_document_witness :
    (extract_and_save_document (some (("January 20, 2021").data)) (("A Speech").data)
        (some (("Body text").data))).length = 1
    ∧ (∀ w ∈ extract_and_save_document (some (("January 20, 2021").data))
          (("A Speech").data) (some (("Body text").data)),
        split_lines w.text
          = (('D' :: 'a' :: 't' :: 'e' :: ':' :: ' ' :: []) ++ ("January 20, 2021").data)
            :: (('T' :: 'i' :: 't' :: 'l' :: 'e' :: ':' :: ' ' :: []) ++ ("A Speech").data)
            :: List.replicate 80 ('=')
            :: ([] : List Char)
            :: split_lines (body_of (some (("Body text").data)))) := by
  have h := C6_one_write_per_document (some (("January 20, 2021").data))
    (("A Speech").data) (some (("Body text").data))
  refine ⟨h.1, ?_⟩
  intro w hw
  exact (h.2 w hw).2.2 (by decide) (by decide)

/-! ### Chunk splitter (claim C2) -/

/-- Modelled from the spec: the chunk-splitting algorithm itself lives in
the external `RecursiveCharacterTextSplitter` of langchain, which
src/Ollama_RAG.py lines 67-82 and src/Open_AI_RAG.py lines 36-37 merely
configure with `chunk_size` and `chunk_overlap`; the splitter contract
of the spec (section 4.2) is the fixed-size sliding window embedded
here: chunk `i` starts at `i * (chunk_size - overlap)` and has length
`chunk_size`, the last chunk truncated to the remaining text, empty text
giving no chunks. -/
def split_text (chunk_size chunk_overlap : Nat) (s : List Char) : List (List Char) :=
  if s.length = 0 then []
  else if _h : chunk_size ≤ chunk_overlap ∨ s.length ≤ chunk_size then [s.take chunk_size]
  else s.take chunk_size :: split_text chunk_size chunk_overlap (s.drop (chunk_size - chunk_overlap))
termination_by s.length
decreasing_by
  simp only [List.length_drop]
  omega

theorem split_text_nil (csz ov : Nat) : split_text csz ov [] = [] := by
  rw [split_text]
  simp

theorem split_text_small (csz ov : Nat) (s : List Char) (h0 : s.length ≠ 0)
    (h1 : s.length ≤ csz) : split_text csz ov s = [s.take csz] := by
  rw [split_text]
  rw [if_neg h0, dif_pos (Or.inr h1)]

theorem split_text_step (csz ov : Nat) (s : List Char) (hov : ov < csz)
    (h1 : csz < s.length) :
    split_text csz ov s = s.take csz :: split_text csz ov (s.drop (csz - ov)) := by
  rw [split_text]
  rw [if_neg (by omega), dif_neg (by omega)]

theorem split_text_length (csz ov : Nat) (hov : ov < csz) :
    ∀ (s : List Char), (split_text csz ov s).length
      = (if s.length = 0 then 0
         else max 1 ((s.length - ov + (csz - ov) - 1) / (csz - ov))) := by
  have hstep : 0 < csz - ov := by omega
  have H : ∀ (n : Nat) (s : List Char), s.length = n →
      (split_text csz ov s).length
        = (if s.length = 0 then 0
           else max 1 ((s.length - ov + (csz - ov) - 1) / (csz - ov))) := by
    intro n
    induction n using Nat.strong_induction_on with
    | _ n ih =>
      intro s hs
      by_cases h0 : s.length = 0
      · have hnil : s = [] := List.length_eq_zero.mp h0
        rw [hnil, split_text_nil, if_pos (by simp)]
        rfl
      · rw [if_neg h0]
        by_cases h1 : s.length ≤ csz
        · rw [split_text_small csz ov s h0 h1]
          have hq : (s.length - ov + (csz - ov) - 1) / (csz - ov) < 2 :=
            Nat.div_lt_of_lt_mul (by omega)
          simp only [List.length_cons, List.length_nil]
          omega
        · rw [split_text_step csz ov s hov (by omega)]
          have hrec := ih (s.drop (csz - ov)).length
            (by rw [List.length_drop]; omega)
            (s.drop (csz - ov)) rfl
          rw [List.length_drop] at hrec
          rw [if_neg (by omega)] at hrec
          simp only [List.length_cons, hrec]
          have hone : 1 ≤ (s.length - (csz - ov) - ov + (csz - ov) - 1) / (csz - ov) := by
            rw [Nat.le_div_iff_mul_le hstep]
            omega
          have hsum : s.length - ov + (csz - ov) - 1
              = (s.length - (csz - ov) - ov + (csz - ov) - 1) + (csz - ov) := by
            omega
          rw [hsum, Nat.add_div_right _ hstep]
          omega
  intro s
  exact H s.length s rfl

theorem split_text_chunk_at (csz ov : Nat) (hov : ov < csz) :
    ∀ (s : List Char) (i : Nat), i < (split_text csz ov s).length →
      (split_text csz ov s)[i]? = some ((s.drop (i * (csz - ov))).take csz) := by
  have H : ∀ (n : Nat) (s : List Char), s.length = n →
      ∀ (i : Nat), i < (split_text csz ov s).length →
        (split_text csz ov s)[i]? = some ((s.drop (i * (csz - ov))).take csz) := by
    intro n
    induction n using Nat.strong_induction_on with
    | _ n ih =>
      intro s hs i hi
      by_cases h0 : s.length = 0
      · have hnil : s = [] := List.length_eq_zero.mp h0
        rw [hnil, split_text_nil] at hi
        exact absurd hi (by simp)
      · by_cases h1 : s.length ≤ csz
        · rw [split_text_small csz ov s h0 h1] at hi ⊢
          have hi0 : i = 0 := by
            simp only [List.length_cons, List.length_nil] at hi
            omega
          rw [hi0]
          simp
        · rw [split_text_step csz ov s hov (by omega)] at hi ⊢
          cases i with
          | zero => simp
          | succ i =>
            simp only [List.getElem?_cons_succ]
            simp only [List.length_cons] at hi
            have hrec := ih (s.drop (csz - ov)).length
              (by rw [List.length_drop]; omega)
              (s.drop (csz - ov)) rfl i (by omega)
            rw [hrec]
            rw [List.drop_drop]
            congr 3
            ring
  intro s
  exact H s.length s rfl

theorem split_text_covers (csz ov : Nat) (hov : ov < csz) :
    ∀ (s : List Char) (j : Nat), j < s.length →
      ∃ (i : Nat) (c : List Char), (split_text csz ov s)[i]? = some c
        ∧ i * (csz - ov) ≤ j ∧ j < i * (csz - ov) + c.length := by
  have H : ∀ (n : Nat) (s : List Char), s.length = n →
      ∀ (j : Nat), j < s.length →
        ∃ (i : Nat) (c : List Char), (split_text csz ov s)[i]? = some c
          ∧ i * (csz - ov) ≤ j ∧ j < i * (csz - ov) + c.length := by
    intro n
    induction n using Nat.strong_induction_on with
    | _ n ih =>
      intro s hs j hj
      by_cases h1 : s.length ≤ csz
      · refine ⟨0, s.take csz, ?_, by omega, ?_⟩
        · rw [split_text_small csz ov s (by omega) h1]
          simp
        · simp only [List.length_take]
          omega
      · by_cases hj1 : j < csz
        · refine ⟨0, s.take csz, ?_, by omega, ?_⟩
          · rw [split_text_step csz ov s hov (by omega)]
            simp
          · simp only [List.length_take]
            omega
        · obtain ⟨i, c, hget, hlo, hhi⟩ := ih (s.drop (csz - ov)).length
            (by rw [List.length_drop]; omega)
            (s.drop (csz - ov)) rfl (j - (csz - ov))
            (by rw [List.length_drop]; omega)
          refine ⟨i + 1, c, ?_, ?_, ?_⟩
          · rw [split_text_step csz ov s hov (by omega)]
            simpa using hget
          · have hmul : (i + 1) * (csz - ov) = i * (csz - ov) + (csz - ov) := by ring
            omega
          · have hmul : (i + 1) * (csz - ov) = i * (csz - ov) + (csz - ov) := by ring
            omega
  intro s
  exact H s.length s rfl

/-- C2 (amended): for `0 ≤ O < C` the splitter chunks start at
`i*(C-O)` with length `C` (last chunk truncated), they cover the text
with no gaps, and empty text yields the empty sequence; the chunk count
equals `ceil(max(len(T)-O,0)/(C-O))` for `len(T) = 0` or `len(T) > O`,
but a nonempty text no longer than the overlap yields one chunk where
the claimed formula says zero — so the count is
`max 1 (ceil(max(len(T)-O,0)/(C-O)))` for nonempty text. -/
theorem C2_split_text_amended (csz ov : Nat) (hov : ov < csz) (s : List Char) :
    (s = [] → split_text csz ov s = [])
    ∧ (split_text csz ov s).length
        = (if s.length = 0 then 0
           else max 1 ((s.length - ov + (csz - ov) - 1) / (csz - ov)))
    ∧ (∀ i, i < (split_text csz ov s).length →
        (split_text csz ov s)[i]? = some ((s.drop (i * (csz - ov))).take csz))
    ∧ (∀ j, j < s.length →
        ∃ (i : Nat) (c : List Char), (split_text csz ov s)[i]? = some c
          ∧ i * (csz - ov) ≤ j ∧ j < i * (csz - ov) + c.length) := by
  refine ⟨?_, split_text_length csz ov hov s, split_text_chunk_at csz ov hov s,
    split_text_covers csz ov hov s⟩
  intro hnil
  rw [hnil]
  exact split_text_nil csz ov

/-- Witness for C2 at `C = 3`, `O = 1`, `T = "abcde"`: two chunks,
the first chunk read back, and coverage of position 4. -/
theorem C2_split_text_amended_witness :
    (split_text 3 1 (['a', 'b', 'c', 'd', 'e'])).length
      = (if (['a', 'b', 'c', 'd', 'e'] : List Char).length = 0 then 0
         else max 1 (((['a', 'b', 'c', 'd', 'e'] : List Char).length - 1 + (3 - 1) - 1) / (3 - 1)))
    ∧ (split_text 3 1 (['a', 'b', 'c', 'd', 'e']))[0]?
        = some (((['a', 'b', 'c', 'd', 'e'] : List Char).drop (0 * (3 - 1))).take 3)
    ∧ (∃ (i : Nat) (c : List Char), (split_text 3 1 (['a', 'b', 'c', 'd', 'e']))[i]? = some c
        ∧ i * (3 - 1) ≤ 4 ∧ 4 < i * (3 - 1) + c.length) := by
  have h := C2_split_text_amended 3 1 (by decide) (['a', 'b', 'c', 'd', 'e'])
  refine ⟨h.2.1, ?_, h.2.2.2 4 (by decide)⟩
  apply h.2.2.1 0
  rw [h.2.1]
  decide

/-- C2 counterexample: at `T = "a"`, `C = 2`, `O = 1` the sliding-window
splitter must produce the single chunk `"a"` (anything else would leave
the text uncovered), while the claimed count
`ceil(max(len(T)-O,0)/(C-O)) = ceil(0/1)` is zero. -/
theorem C2_count_formula_counterexample :
    split_text 2 1 (['a']) = [['a']]
    ∧ (split_text 2 1 (['a'])).length = 1
    ∧ (max ((['a'] : List Char).length - 1) 0 + (2 - 1) - 1) / (2 - 1) = 0 := by
  have h1 : split_text 2 1 (['a']) = [['a']] := by
    rw [split_text_small 2 1 (['a']) (by decide) (by decide)]
    rfl
  refine ⟨h1, by rw [h1]; rfl, by decide⟩
